import Mathlib

/-!
Verification of the mra.dbs history reader (src/main.cpp).

Modelling conventions (shallow embedding of the C code):

* The loaded file is a `Buf := List Nat`, one entry per byte, little-endian
  multi-byte reads built from single-byte reads.
* The offset table is a function `Nat → Nat`, mirroring the C parameter
  `const uint32_t offset_table[]` (indexing it is itself an unchecked read in
  the C code; the table values are what matter to the scans).
* The C code performs unchecked pointer reads into the file buffer.  A read
  that falls outside the buffer is undefined behaviour in C; in the embedding
  every such raw access is made observable as the outcome `Err.ub`.
* `assert(cond)` in the source prints and calls `exit(1)`; this
  process-aborting outcome is modelled as `Err.assertFail`.
* The two `while` loops of `get_history` / `get_messages` have no bound in the
  source and can run forever; they are embedded with an explicit fuel
  parameter, `Err.fuel` marking an execution that did not finish within the
  given step budget (so "diverges" = fails for every fuel).
* UTF-16 strings are represented by their list of decoded 16-bit code units up
  to the terminating zero; the source's further UTF-16 to UTF-8 transcoding
  (`std::wstring_convert::to_bytes`) is a re-encoding of exactly those code
  units and is not modelled separately.
-/

/-- The raw file bytes. -/
abbrev Buf := List Nat

/-- Outcomes of a scan over untrusted bytes. `ub` marks a raw out-of-range
buffer access (undefined behaviour in the C source, which has no bounds
checks on these reads); `assertFail` is the source's process-exiting
`assert`; `fuel` marks an execution that exceeded the step budget (the
source loop would still be running). -/
inductive Err where
  | ub
  | assertFail
  | fuel
deriving DecidableEq, Repr

/-- Read one byte, `none` when the index is outside the buffer. -/
def readU8 (f : Buf) (i : Nat) : Option Nat := f.get? i

/-- Little-endian 16-bit read, as the C code's `*(char16_t*)` accesses. -/
def readU16 (f : Buf) (i : Nat) : Option Nat :=
  match readU8 f i, readU8 f (i + 1) with
  | some a, some b => some (a + 256 * b)
  | _, _ => none

/-- Little-endian 32-bit read, as the C code's `*(uint32_t*)` accesses. -/
def readU32 (f : Buf) (i : Nat) : Option Nat :=
  match readU16 f i, readU16 f (i + 2) with
  | some a, some b => some (a + 65536 * b)
  | _, _ => none

/-- Read `n` consecutive bytes starting at `i`. -/
def readBytes (f : Buf) (i n : Nat) : Option (List Nat) :=
  match n with
  | 0 => some []
  | n + 1 =>
    match readU8 f i with
    | none => none
    | some b =>
      match readBytes f (i + 1) n with
      | none => none
      | some rest => some (b :: rest)

/-- Source line 58: the UTF-16LE bytes of the ASCII string "mrahistory_". -/
def mrahistory : List Nat :=
  [0x6D, 0x00, 0x72, 0x00, 0x61, 0x00, 0x68, 0x00, 0x69, 0x00, 0x73, 0x00,
   0x74, 0x00, 0x6F, 0x00, 0x72, 0x00, 0x79, 0x00, 0x5F, 0x00]

/-- Occurrence test of `needle` inside `hay`, as C `memmem` decides it:
true exactly when some position of `hay` starts a full copy of `needle`. -/
def memmemFound (hay needle : List Nat) : Bool :=
  if needle.length = 0 then true
  else
    (List.range (hay.length + 1 - needle.length)).any
      fun k => decide ((hay.drop k).take needle.length = needle)

/-- Fuelled zero-terminated UTF-16LE decoding: read code units from byte
offset `i` until a zero unit.  Mirrors the walk the source's
`std::wstring_convert::to_bytes` performs over a `char16_t*`. -/
def decodeZF (f : Buf) : Nat → Nat → Except Err (List Nat)
  | 0, _ => .error .ub
  | n + 1, i =>
    match readU16 f i with
    | none => .error .ub
    | some 0 => .ok []
    | some (c + 1) => (decodeZF f n (i + 2)).map (fun r => (c + 1) :: r)

/-- Zero-terminated UTF-16LE decoding starting at byte offset `i`.  The fuel
`f.length + 1` exceeds the largest possible number of loop steps (each
successful step needs `i + 1 < f.length` and advances `i` by 2), so the
fuel never runs out before the source loop would stop or run off the end
of the buffer. -/
def decodeZ (f : Buf) (i : Nat) : Except Err (List Nat) :=
  decodeZF f (f.length + 1) i

/-- A correspondent record as produced by `get_history` (source `Email`):
the decoded display name and the byte offset of the message-head `IdPair`
the source keeps a pointer to (`id_pair + 0x24`). -/
structure Email where
  name : List Nat
  idPairOff : Nat
deriving DecidableEq, Repr

/-- A parsed message (source `Message`): the byte offset of its header (the
source keeps a pointer) and the decoded author and text strings. -/
structure Message where
  headerOff : Nat
  author : List Nat
  text : List Nat
deriving DecidableEq, Repr

/-- One iteration of the `get_history` loop body (source lines 112-134) at
cursor `c`: the `assert(current_offset < file_size)`, the `memmem`
signature probe of the 22 bytes at `offset + 4 + 0x190`, on a hit the name
decode after the marker and the `IdPair` pointer at `offset + 4 + 0x24`,
and finally the `id_pair->id2` read that yields the next cursor. -/
def historyStep (f : Buf) (tbl : Nat → Nat) (c : Nat) :
    Except Err (Option Email × Nat) :=
  if tbl c < f.length then
    match readBytes f (tbl c + 4 + 0x190) 22 with
    | none => .error .ub
    | some w =>
      if memmemFound w mrahistory then
        match decodeZ f (tbl c + 4 + 0x190 + 22) with
        | .error e => .error e
        | .ok nm =>
          match readU32 f (tbl c + 8) with
          | none => .error .ub
          | some nxt => .ok (some ⟨nm, tbl c + 4 + 0x24⟩, nxt)
      else
        match readU32 f (tbl c + 8) with
        | none => .error .ub
        | some nxt => .ok (none, nxt)
  else .error .assertFail

/-- The `while (last_email)` loop of `get_history` (source lines 111-135),
with an explicit fuel bound (the source loop is unbounded). -/
def historyLoop (f : Buf) (tbl : Nat → Nat) : Nat → Nat → Except Err (List Email)
  | 0, c => if c = 0 then .ok [] else .error .fuel
  | fuel + 1, c =>
    if c = 0 then .ok []
    else
      match historyStep f tbl c with
      | .error e => .error e
      | .ok (some em, nxt) => (historyLoop f tbl fuel nxt).map (fun r => em :: r)
      | .ok (none, nxt) => historyLoop f tbl fuel nxt

/-- Source `get_history` (lines 101-138): bootstrap the cursor from the u32
at `offset_table[1] + 0x2C`, then walk the correspondent chain. -/
def get_history (f : Buf) (tbl : Nat → Nat) (fuel : Nat) : Except Err (List Email) :=
  match readU32 f (tbl 1 + 0x2C) with
  | none => .error .ub
  | some last_email => historyLoop f tbl fuel last_email

/-- One iteration of the `get_messages` loop body (source lines 147-167) at
cursor `c`: the header reads (`magic_number` at +36 with its `assert`,
`nickname_length` at +32), the probe of the first text code unit at
`header + 56 + 2 * nickname_length` with the SMS (`type == 0x11`) 3-unit
skip, the author and text decodes, and the `prev_id` read at +4. -/
def messagesStep (f : Buf) (tbl : Nat → Nat) (c : Nat) :
    Except Err (Message × Nat) :=
  match readU32 f (tbl c + 36) with
  | none => .error .ub
  | some magic =>
    if magic = 0x38 then
      match readU32 f (tbl c + 32) with
      | none => .error .ub
      | some nick =>
        match readU16 f (tbl c + 56 + 2 * nick) with
        | none => .error .ub
        | some t0 =>
          match
            (if t0 = 0 then
              match readU32 f (tbl c + 24) with
              | none => Except.error Err.ub
              | some ty =>
                Except.ok (if ty = 0x11 then tbl c + 56 + 2 * nick + 6
                           else tbl c + 56 + 2 * nick)
            else Except.ok (tbl c + 56 + 2 * nick)) with
          | .error e => .error e
          | .ok toff =>
            match decodeZ f (tbl c + 56) with
            | .error e => .error e
            | .ok a =>
              match decodeZ f toff with
              | .error e => .error e
              | .ok t =>
                match readU32 f (tbl c + 4) with
                | none => .error .ub
                | some prev => .ok (⟨tbl c, a, t⟩, prev)
    else .error .assertFail

/-- The `while (msg_id != 0)` loop of `get_messages` (source lines 146-168),
with an explicit fuel bound (the source loop is unbounded). -/
def messagesLoop (f : Buf) (tbl : Nat → Nat) : Nat → Nat → Except Err (List Message)
  | 0, c => if c = 0 then .ok [] else .error .fuel
  | fuel + 1, c =>
    if c = 0 then .ok []
    else
      match messagesStep f tbl c with
      | .error e => .error e
      | .ok (m, prev) => (messagesLoop f tbl fuel prev).map (fun r => m :: r)

/-- Source `get_messages` (lines 140-171): read the chain head
`email.id_pair->id1`, then walk the message chain. -/
def get_messages (f : Buf) (tbl : Nat → Nat) (email : Email) (fuel : Nat) :
    Except Err (List Message) :=
  match readU32 f email.idPairOff with
  | none => .error .ub
  | some msg_id => messagesLoop f tbl fuel msg_id

/-- The driver loop of `main` (source lines 193-207): fetch the
correspondents, then every correspondent's messages.  An `assert`/UB
outcome anywhere kills the whole process, hence the short-circuiting
`Except`. -/
def run_all (f : Buf) (tbl : Nat → Nat) (fuel : Nat) :
    Except Err (List (Email × List Message)) :=
  match get_history f tbl fuel with
  | .error e => .error e
  | .ok emails =>
    emails.mapM fun e => (get_messages f tbl e fuel).map (fun ms => (e, ms))

/-- The sequence of record ids the `get_history` loop examines, mirroring
the loop's own control flow (same checks, same errors). -/
def chainIds (f : Buf) (tbl : Nat → Nat) : Nat → Nat → Except Err (List Nat)
  | 0, c => if c = 0 then .ok [] else .error .fuel
  | fuel + 1, c =>
    if c = 0 then .ok []
    else
      match historyStep f tbl c with
      | .error e => .error e
      | .ok (_, nxt) => (chainIds f tbl fuel nxt).map (fun r => c :: r)

/-- The correspondent (if any) that the `get_history` loop body emits at
record id `c`. -/
def emailAt (f : Buf) (tbl : Nat → Nat) (c : Nat) : Option Email :=
  match historyStep f tbl c with
  | .error _ => none
  | .ok (em, _) => em

/-- Little-endian byte encoding of a 16-bit value (for building test data). -/
def u16le (v : Nat) : List Nat := [v % 256, v / 256 % 256]

/-- Little-endian byte encoding of a 32-bit value (for building test data). -/
def u32le (v : Nat) : List Nat :=
  [v % 256, v / 256 % 256, v / 65536 % 256, v / 16777216 % 256]

/-- A run of zero bytes (for building test data). -/
def zeros (n : Nat) : List Nat := List.replicate n 0

/-- Synthetic 624-byte container: the anchor record (id 1, at offset 0) whose
byte 0x2C holds correspondent id 2; one valid correspondent record (id 2,
at offset 48) with the "mrahistory_" marker, name "A" and message head
id 3; message id 3 (offset 480, author "B", text "X", prev id 4) and
message id 4 (offset 560, author "C", text "Y", prev id 0). -/
def buf1 : Buf :=
  zeros 44 ++ u32le 2 ++ zeros 40 ++ u32le 3 ++ zeros 360 ++ mrahistory ++
  u16le 0x41 ++ u16le 0 ++ zeros 2 ++
  zeros 4 ++ u32le 4 ++ zeros 24 ++ u32le 2 ++ u32le 0x38 ++ zeros 16 ++
  u16le 0x42 ++ u16le 0 ++ u16le 0x58 ++ u16le 0 ++ zeros 16 ++
  zeros 32 ++ u32le 2 ++ u32le 0x38 ++ zeros 16 ++
  u16le 0x43 ++ u16le 0 ++ u16le 0x59 ++ u16le 0

/-- Offset table for `buf1`. -/
def tbl1 : Nat → Nat := fun i =>
  match i with
  | 1 => 0
  | 2 => 48
  | 3 => 480
  | 4 => 560
  | _ => 0

instance instDecEqExcept {ε α : Type} [DecidableEq ε] [DecidableEq α] :
    DecidableEq (Except ε α)
  | .error a, .error b => decidable_of_iff (a = b) (by simp)
  | .error _, .ok _ => isFalse (by simp)
  | .ok _, .error _ => isFalse (by simp)
  | .ok a, .ok b => decidable_of_iff (a = b) (by simp)

/-- Synthetic 1290-byte container holding a 3-record correspondent chain
5 -> 6 -> 7 -> 0 (records at offsets 0, 432, 864) where only the middle
record (id 6, name "M", message head id pair at offset 472) carries the
"mrahistory_" marker. -/
def buf2 : Buf :=
  zeros 8 ++ u32le 6 ++ zeros 420 ++
  zeros 8 ++ u32le 7 ++ zeros 392 ++ mrahistory ++ u16le 0x4D ++ u16le 0 ++ zeros 2 ++
  zeros 426

/-- Offset table for `buf2`. -/
def tbl2 : Nat → Nat := fun i =>
  match i with
  | 5 => 0
  | 6 => 432
  | 7 => 864
  | _ => 0

/-- Synthetic 1032-byte container with two valid correspondents: "A" (id 2,
offset 48, message head id 4) and "B" (id 3, offset 480, message head
id 5).  Message 4 (offset 912) has magic number 0, message 5 (offset 968)
is well-formed (author "E", text "Z", prev id 0). -/
def buf3 : Buf :=
  zeros 44 ++ u32le 2 ++
  zeros 8 ++ u32le 3 ++ zeros 28 ++ u32le 4 ++ zeros 360 ++ mrahistory ++
  u16le 0x41 ++ u16le 0 ++ zeros 2 ++
  zeros 40 ++ u32le 5 ++ zeros 360 ++ mrahistory ++
  u16le 0x42 ++ u16le 0 ++ zeros 2 ++
  zeros 56 ++
  zeros 32 ++ u32le 2 ++ u32le 0x38 ++ zeros 16 ++
  u16le 0x45 ++ u16le 0 ++ u16le 0x5A ++ u16le 0

/-- Offset table for `buf3`. -/
def tbl3 : Nat → Nat := fun i =>
  match i with
  | 1 => 0
  | 2 => 48
  | 3 => 480
  | 4 => 912
  | 5 => 968
  | _ => 0

/-- A 16-byte buffer whose first u32 is the message id 7. -/
def bufD : Buf := u32le 7 ++ zeros 12

/-- Offset table sending every id to offset 100, far outside `bufD`. -/
def tblD : Nat → Nat := fun _ => 100

/-- A 16-byte all-zero buffer. -/
def bufE : Buf := zeros 16

/-- Offset table sending every id to offset 8: inside `bufE`, so the
correspondent scan's assert passes, but the 22-byte signature window at
offset 8 + 0x194 is far outside the buffer. -/
def tblE : Nat → Nat := fun _ => 8

/-- A 58-byte container holding one well-formed message record at offset 0
(empty author and text, magic number 0x38) whose prev id is 9 - the id of
the record itself, a one-record cycle. -/
def bufc : Buf := zeros 4 ++ u32le 9 ++ zeros 28 ++ u32le 0x38 ++ zeros 18

/-- Offset table for `bufc`: every id resolves to offset 0. -/
def tblc : Nat → Nat := fun _ => 0

/-- A 426-byte all-zero container except that the u32 at offset 8 - the
`id2` chain-follow field of the record at offset 0 - is 2, the id of the
record itself, a one-record correspondent cycle (no marker, so the record
is just skipped each time round). -/
def bufh : Buf := zeros 8 ++ u32le 2 ++ zeros 414

/-- Offset table for `bufh`: every id resolves to offset 0. -/
def tblh : Nat → Nat := fun _ => 0

/-- The message traversal started at id `c` exhausts every step budget:
this is the embedding's rendering of the source loop running forever. -/
def loopsForever (f : Buf) (tbl : Nat → Nat) (c : Nat) : Prop :=
  ∀ n, messagesLoop f tbl n c = .error Err.fuel

/-- The signature test exactly as the source performs it (line 118): a
`memmem` search for the 22 marker bytes within the 22-byte window starting
at `loc`, `false` also covering a window that leaves the buffer. -/
def sigCheckCode (f : Buf) (loc : Nat) : Bool :=
  match readBytes f loc 22 with
  | none => false
  | some w => memmemFound w mrahistory

/-- Spec-side reading of the signature test: an exact byte-for-byte
comparison of the 22 bytes at `loc` against the "mrahistory_" marker. -/
def sigMatchesSpec (f : Buf) (loc : Nat) : Prop :=
  readBytes f loc 22 = some mrahistory

/-- `tbl1` with a different (never legitimately consulted) entry for the
sentinel id 0. -/
def tbl1z : Nat → Nat := fun i => if i = 0 then 77 else tbl1 i

set_option maxRecDepth 10000

/-- A 16-bit read strictly needs both its bytes inside the buffer. -/
theorem readU16_none_of (f : Buf) (i : Nat) (h : f.length < i + 2) :
    readU16 f i = none := by
  have h1 : f.get? (i + 1) = none := List.get?_eq_none.2 (by omega)
  unfold readU16 readU8
  rw [h1]
  cases f.get? i <;> rfl

/-- A 32-bit read strictly needs all four bytes inside the buffer. -/
theorem readU32_none_of (f : Buf) (i : Nat) (h : f.length < i + 4) :
    readU32 f i = none := by
  have h2 : readU16 f (i + 2) = none := readU16_none_of f (i + 2) (by omega)
  unfold readU32
  rw [h2]
  cases readU16 f i <;> rfl

/-- A nonempty byte-range read fails when the range leaves the buffer. -/
theorem readBytes_none_of (f : Buf) :
    ∀ (n i : Nat), f.length < i + n → n ≠ 0 → readBytes f i n = none := by
  intro n
  induction n with
  | zero => intro i _ hn; exact absurd rfl hn
  | succ m ih =>
    intro i h _
    simp only [readBytes]
    cases hx : readU8 f i with
    | none => rfl
    | some b =>
      have hi : i < f.length := by
        by_contra hge
        rw [show readU8 f i = f.get? i from rfl, List.get?_eq_none.2 (by omega)] at hx
        exact Option.noConfusion hx
      rw [ih (i + 1) (by omega) (by omega)]

/-- A successful byte-range read returns exactly the requested length. -/
theorem readBytes_length (f : Buf) :
    ∀ (n i : Nat) (l : List Nat), readBytes f i n = some l → l.length = n := by
  intro n
  induction n with
  | zero =>
    intro i l h
    simp only [readBytes] at h
    cases h
    rfl
  | succ m ih =>
    intro i l h
    simp only [readBytes] at h
    cases hx : readU8 f i with
    | none => rw [hx] at h; exact Option.noConfusion h
    | some b =>
      rw [hx] at h
      cases hy : readBytes f (i + 1) m with
      | none => rw [hy] at h; exact Option.noConfusion h
      | some rest =>
        rw [hy] at h
        cases h
        simp [ih (i + 1) rest hy]

/-- Over a window of exactly the needle's length, the `memmem` search
degenerates to plain equality of the two byte runs. -/
theorem memmem_window (w nd : List Nat) (h : w.length = nd.length) :
    memmemFound w nd = true ↔ w = nd := by
  unfold memmemFound
  by_cases h0 : nd.length = 0
  · rw [if_pos h0]
    constructor
    · intro _
      rw [List.length_eq_zero.1 (by omega : w.length = 0),
        List.length_eq_zero.1 h0]
    · intro _; rfl
  · rw [if_neg h0]
    have hr : w.length + 1 - nd.length = 1 := by omega
    rw [hr, show List.range 1 = [0] from rfl]
    simp only [List.any_cons, List.any_nil, Bool.or_false, List.drop_zero,
      decide_eq_true_eq]
    rw [show w.take nd.length = w from by rw [← h]; exact List.take_length w]

/-- A zero cursor ends both scans at once, whatever the fuel. -/
theorem historyLoop_zero (f : Buf) (tbl : Nat → Nat) (n : Nat) :
    historyLoop f tbl n 0 = .ok [] := by cases n <;> rfl

/-- A zero cursor ends the message scan at once, whatever the fuel. -/
theorem messagesLoop_zero (f : Buf) (tbl : Nat → Nat) (n : Nat) :
    messagesLoop f tbl n 0 = .ok [] := by cases n <;> rfl

/-- A zero cursor ends the chain-id trace at once, whatever the fuel. -/
theorem chainIds_zero (f : Buf) (tbl : Nat → Nat) (n : Nat) :
    chainIds f tbl n 0 = .ok [] := by cases n <;> rfl

/-- Exhausted fuel on a live cursor reports `Err.fuel` (correspondents). -/
theorem historyLoop_fuel_zero (f : Buf) (tbl : Nat → Nat) (c : Nat) (hc : c ≠ 0) :
    historyLoop f tbl 0 c = .error .fuel := by
  simp [historyLoop, hc]

/-- Exhausted fuel on a live cursor reports `Err.fuel` (messages). -/
theorem messagesLoop_fuel_zero (f : Buf) (tbl : Nat → Nat) (c : Nat) (hc : c ≠ 0) :
    messagesLoop f tbl 0 c = .error .fuel := by
  simp [messagesLoop, hc]

/-- Unfolding the correspondent loop once on a failing step. -/
theorem historyLoop_succ_error (f : Buf) (tbl : Nat → Nat) (n c : Nat) (e : Err)
    (hc : c ≠ 0) (hs : historyStep f tbl c = .error e) :
    historyLoop f tbl (n + 1) c = .error e := by
  simp only [historyLoop]
  rw [if_neg hc, hs]

/-- Unfolding the correspondent loop once on an emitting step. -/
theorem historyLoop_succ_some (f : Buf) (tbl : Nat → Nat) (n c nxt : Nat) (em : Email)
    (hc : c ≠ 0) (hs : historyStep f tbl c = .ok (some em, nxt)) :
    historyLoop f tbl (n + 1) c = (historyLoop f tbl n nxt).map (fun r => em :: r) := by
  simp only [historyLoop]
  rw [if_neg hc, hs]

/-- Unfolding the correspondent loop once on a skipping step. -/
theorem historyLoop_succ_none (f : Buf) (tbl : Nat → Nat) (n c nxt : Nat)
    (hc : c ≠ 0) (hs : historyStep f tbl c = .ok (none, nxt)) :
    historyLoop f tbl (n + 1) c = historyLoop f tbl n nxt := by
  simp only [historyLoop]
  rw [if_neg hc, hs]

/-- Unfolding the message loop once on a failing step. -/
theorem messagesLoop_succ_error (f : Buf) (tbl : Nat → Nat) (n c : Nat) (e : Err)
    (hc : c ≠ 0) (hs : messagesStep f tbl c = .error e) :
    messagesLoop f tbl (n + 1) c = .error e := by
  simp only [messagesLoop]
  rw [if_neg hc, hs]

/-- Unfolding the message loop once on a successful step. -/
theorem messagesLoop_succ_ok (f : Buf) (tbl : Nat → Nat) (n c prev : Nat) (m : Message)
    (hc : c ≠ 0) (hs : messagesStep f tbl c = .ok (m, prev)) :
    messagesLoop f tbl (n + 1) c = (messagesLoop f tbl n prev).map (fun r => m :: r) := by
  simp only [messagesLoop]
  rw [if_neg hc, hs]

/-- Any correspondent-chain walk that keeps stepping inside a set of live
cursors (never 0) exhausts every fuel bound: the source loop, which has no
cycle guard, runs forever on such a chain. -/
theorem historyLoop_cycle (f : Buf) (tbl : Nat → Nat) (S : Nat → Prop)
    (h0 : ∀ c, S c → c ≠ 0)
    (hstep : ∀ c, S c → ∃ c2, S c2 ∧ ∀ n,
      historyLoop f tbl n c2 = .error .fuel → historyLoop f tbl (n + 1) c = .error .fuel) :
    ∀ n c, S c → historyLoop f tbl n c = .error .fuel := by
  intro n
  induction n with
  | zero => intro c hS; exact historyLoop_fuel_zero f tbl c (h0 c hS)
  | succ m ih =>
    intro c hS
    obtain ⟨c2, hS2, hst⟩ := hstep c hS
    exact hst m (ih c2 hS2)

/-- Any message-chain walk that keeps stepping inside a set of live cursors
(never 0) exhausts every fuel bound: the source loop, which has no cycle
guard, runs forever on such a chain. -/
theorem messagesLoop_cycle (f : Buf) (tbl : Nat → Nat) (S : Nat → Prop)
    (h0 : ∀ c, S c → c ≠ 0)
    (hstep : ∀ c, S c → ∃ c2, S c2 ∧ ∀ n,
      messagesLoop f tbl n c2 = .error .fuel → messagesLoop f tbl (n + 1) c = .error .fuel) :
    ∀ n c, S c → messagesLoop f tbl n c = .error .fuel := by
  intro n
  induction n with
  | zero => intro c hS; exact messagesLoop_fuel_zero f tbl c (h0 c hS)
  | succ m ih =>
    intro c hS
    obtain ⟨c2, hS2, hst⟩ := hstep c hS
    exact hst m (ih c2 hS2)

/-- The correspondent step reads the offset table only at its cursor. -/
theorem historyStep_congr (f : Buf) (t1 t2 : Nat → Nat) (c : Nat) (h : t1 c = t2 c) :
    historyStep f t1 c = historyStep f t2 c := by
  simp only [historyStep, h]

/-- The message step reads the offset table only at its cursor. -/
theorem messagesStep_congr (f : Buf) (t1 t2 : Nat → Nat) (c : Nat) (h : t1 c = t2 c) :
    messagesStep f t1 c = messagesStep f t2 c := by
  simp only [messagesStep, h]

/-- The correspondent loop never consults the offset table at id 0: two
tables agreeing away from 0 drive it identically. -/
theorem historyLoop_congr (f : Buf) (t1 t2 : Nat → Nat)
    (h : ∀ i, i ≠ 0 → t1 i = t2 i) :
    ∀ n c, historyLoop f t1 n c = historyLoop f t2 n c := by
  intro n
  induction n with
  | zero => intro c; rfl
  | succ m ih =>
    intro c
    by_cases hc : c = 0
    · subst hc; rfl
    · simp only [historyLoop]
      rw [if_neg hc, if_neg hc, historyStep_congr f t1 t2 c (h c hc)]
      cases historyStep f t2 c with
      | error e => rfl
      | ok p =>
        obtain ⟨em, nxt⟩ := p
        cases em with
        | none => exact ih nxt
        | some e => dsimp only; rw [ih nxt]

/-- The message loop never consults the offset table at id 0: two tables
agreeing away from 0 drive it identically. -/
theorem messagesLoop_congr (f : Buf) (t1 t2 : Nat → Nat)
    (h : ∀ i, i ≠ 0 → t1 i = t2 i) :
    ∀ n c, messagesLoop f t1 n c = messagesLoop f t2 n c := by
  intro n
  induction n with
  | zero => intro c; rfl
  | succ m ih =>
    intro c
    by_cases hc : c = 0
    · subst hc; rfl
    · simp only [messagesLoop]
      rw [if_neg hc, if_neg hc, messagesStep_congr f t1 t2 c (h c hc)]
      cases messagesStep f t2 c with
      | error e => rfl
      | ok p =>
        obtain ⟨m2, prev⟩ := p
        dsimp only
        rw [ih prev]

/-- Mapping an `Except`-valued function over a list that contains a failing
element fails. -/
theorem mapM_error {α β : Type} (g : α → Except Err β) :
    ∀ l : List α, (∃ x ∈ l, ∃ er, g x = .error er) →
      ∃ er, l.mapM g = .error er := by
  intro l
  induction l with
  | nil =>
    intro hex
    obtain ⟨x, hx, _⟩ := hex
    exact absurd hx (List.not_mem_nil x)
  | cons a l ih =>
    intro hex
    obtain ⟨x, hx, er, her⟩ := hex
    cases hga : g a with
    | error e => exact ⟨e, by rw [List.mapM_cons, hga]; rfl⟩
    | ok b =>
      rcases List.mem_cons.1 hx with h1 | h2
      · subst h1
        rw [hga] at her
        exact absurd her (by simp)
      · obtain ⟨er2, hmm⟩ := ih ⟨x, h2, er, her⟩
        exact ⟨er2, by rw [List.mapM_cons, hga, show (Except.ok b >>= fun b2 =>
          l.mapM g >>= fun bs => pure (b2 :: bs)) = (l.mapM g >>= fun bs =>
          pure (b :: bs)) from rfl, hmm]; rfl⟩

/-- A successful correspondent scan returns exactly the records of the
examined chain that carry the signature, in chain order: emission order is
traversal order, with non-matching records dropped in place. -/
theorem historyLoop_chain (f : Buf) (tbl : Nat → Nat) :
    ∀ n c es, historyLoop f tbl n c = .ok es →
      ∃ ids, chainIds f tbl n c = .ok ids ∧ es = ids.filterMap (emailAt f tbl) := by
  intro n
  induction n with
  | zero =>
    intro c es h
    by_cases hc : c = 0
    · subst hc
      refine ⟨[], rfl, ?_⟩
      have h2 : ([] : List Email) = es := by
        have h3 := historyLoop_zero f tbl 0
        rw [h3] at h
        exact Except.ok.inj h
      simp [← h2]
    · rw [historyLoop_fuel_zero f tbl c hc] at h
      exact absurd h (by simp)
  | succ m ih =>
    intro c es h
    by_cases hc : c = 0
    · subst hc
      refine ⟨[], chainIds_zero f tbl _, ?_⟩
      have h2 : ([] : List Email) = es := by
        rw [historyLoop_zero f tbl (m + 1)] at h
        exact Except.ok.inj h
      simp [← h2]
    · cases hstep : historyStep f tbl c with
      | error e =>
        rw [historyLoop_succ_error f tbl m c e hc hstep] at h
        exact absurd h (by simp)
      | ok p =>
        obtain ⟨em, nxt⟩ := p
        cases em with
        | some e =>
          rw [historyLoop_succ_some f tbl m c nxt e hc hstep] at h
          cases hrec : historyLoop f tbl m nxt with
          | error e2 => rw [hrec] at h; exact absurd h (by simp [Except.map])
          | ok es2 =>
            rw [hrec] at h
            have hes : es = e :: es2 := by
              have h2 : Except.ok (e :: es2) = Except.ok es := h
              exact (Except.ok.inj h2).symm
            obtain ⟨ids2, hch, hfm⟩ := ih nxt es2 hrec
            refine ⟨c :: ids2, ?_, ?_⟩
            · simp only [chainIds]
              rw [if_neg hc, hstep]
              dsimp only
              rw [hch]
              rfl
            · rw [hes, hfm]
              simp [List.filterMap_cons, emailAt, hstep]
        | none =>
          rw [historyLoop_succ_none f tbl m c nxt hc hstep] at h
          obtain ⟨ids2, hch, hfm⟩ := ih nxt es h
          refine ⟨c :: ids2, ?_, ?_⟩
          · simp only [chainIds]
            rw [if_neg hc, hstep]
            dsimp only
            rw [hch]
            rfl
          · rw [hfm]
            simp [List.filterMap_cons, emailAt, hstep]


/-- Evaluating the correspondent step when the offset check fails. -/
theorem historyStep_assert (f : Buf) (tbl : Nat → Nat) (c : Nat)
    (h : ¬ tbl c < f.length) : historyStep f tbl c = .error .assertFail := by
  unfold historyStep
  rw [if_neg h]

/-- Evaluating the correspondent step when the signature window leaves the
buffer. -/
theorem historyStep_window_oob (f : Buf) (tbl : Nat → Nat) (c : Nat)
    (hoff : tbl c < f.length) (h : readBytes f (tbl c + 4 + 0x190) 22 = none) :
    historyStep f tbl c = .error .ub := by
  unfold historyStep
  rw [if_pos hoff, h]

/-- Evaluating the correspondent step on a record without the signature. -/
theorem historyStep_skip (f : Buf) (tbl : Nat → Nat) (c nxt : Nat) (w : List Nat)
    (hoff : tbl c < f.length)
    (hw : readBytes f (tbl c + 4 + 0x190) 22 = some w)
    (hmm : memmemFound w mrahistory = false)
    (hnext : readU32 f (tbl c + 8) = some nxt) :
    historyStep f tbl c = .ok (none, nxt) := by
  unfold historyStep
  rw [if_pos hoff, hw]
  dsimp only
  rw [hmm, if_neg Bool.false_ne_true, hnext]

/-- Evaluating the correspondent step on a record with the signature. -/
theorem historyStep_emit (f : Buf) (tbl : Nat → Nat) (c nxt : Nat) (w nm : List Nat)
    (hoff : tbl c < f.length)
    (hw : readBytes f (tbl c + 4 + 0x190) 22 = some w)
    (hmm : memmemFound w mrahistory = true)
    (hnm : decodeZ f (tbl c + 4 + 0x190 + 22) = .ok nm)
    (hnext : readU32 f (tbl c + 8) = some nxt) :
    historyStep f tbl c = .ok (some ⟨nm, tbl c + 4 + 0x24⟩, nxt) := by
  unfold historyStep
  rw [if_pos hoff, hw]
  dsimp only
  rw [hmm, if_pos rfl, hnm]
  dsimp only
  rw [hnext]

/-- Evaluating the message step when the header read leaves the buffer. -/
theorem messagesStep_oob (f : Buf) (tbl : Nat → Nat) (c : Nat)
    (h : readU32 f (tbl c + 36) = none) : messagesStep f tbl c = .error .ub := by
  unfold messagesStep
  rw [h]

/-- Evaluating the message step on a wrong magic number. -/
theorem messagesStep_assert (f : Buf) (tbl : Nat → Nat) (c m : Nat)
    (hm : readU32 f (tbl c + 36) = some m) (hne : m ≠ 0x38) :
    messagesStep f tbl c = .error .assertFail := by
  unfold messagesStep
  rw [hm]
  dsimp only
  rw [if_neg hne]

/-- Evaluating the message step on a well-formed record: author decoded at
56 bytes past the header start, text `nickname_length` code units later,
with the 3-code-unit SMS skip exactly when the probed unit is zero and the
type is 0x11. -/
theorem messagesStep_ok (f : Buf) (tbl : Nat → Nat) (c nick t0 ty prev : Nat)
    (a t : List Nat)
    (hmagic : readU32 f (tbl c + 36) = some 0x38)
    (hnick : readU32 f (tbl c + 32) = some nick)
    (ht0 : readU16 f (tbl c + 56 + 2 * nick) = some t0)
    (hty : readU32 f (tbl c + 24) = some ty)
    (ha : decodeZ f (tbl c + 56) = .ok a)
    (ht : decodeZ f (if t0 = 0 ∧ ty = 0x11 then tbl c + 56 + 2 * nick + 6
      else tbl c + 56 + 2 * nick) = .ok t)
    (hprev : readU32 f (tbl c + 4) = some prev) :
    messagesStep f tbl c = .ok (⟨tbl c, a, t⟩, prev) := by
  unfold messagesStep
  rw [hmagic]
  dsimp only
  rw [if_pos rfl, hnick]
  dsimp only
  rw [ht0]
  dsimp only
  by_cases h0 : t0 = 0
  · rw [if_pos h0, hty]
    dsimp only
    by_cases hy : ty = 0x11
    · rw [if_pos hy]
      rw [if_pos ⟨h0, hy⟩] at ht
      rw [ha]
      dsimp only
      rw [ht]
      dsimp only
      rw [hprev]
    · rw [if_neg hy]
      rw [if_neg (fun hh => hy hh.2)] at ht
      rw [ha]
      dsimp only
      rw [ht]
      dsimp only
      rw [hprev]
  · rw [if_neg h0]
    rw [if_neg (fun hh => h0 hh.1)] at ht
    dsimp only
    rw [ha]
    dsimp only
    rw [ht]
    dsimp only
    rw [hprev]

/-- C1: on a buffer holding exactly one correspondent record with a valid
signature whose message-head IdPair points to two messages chained via
prev id (second to first to 0), the correspondent scan returns exactly the
one correspondent with the expected decoded name (code unit 0x41, "A") and
the message scan returns exactly the two messages in prev-id order, most
recent first. -/
theorem one_correspondent_two_messages :
    get_history buf1 tbl1 9 = .ok [⟨[0x41], 88⟩] ∧
    get_messages buf1 tbl1 ⟨[0x41], 88⟩ 9 =
      .ok [⟨480, [0x42], [0x58]⟩, ⟨560, [0x43], [0x59]⟩] :=
  ⟨rfl, rfl⟩

/-- C9: each scan is a pure, deterministic function of the buffer, the
offset table and the starting point: pointwise-equal inputs give equal
outputs (and the buffer and table, being values, are never mutated). -/
theorem scan_purity (f1 f2 : Buf) (t1 t2 : Nat → Nat) (n : Nat) (e : Email)
    (hf : ∀ i, f1.get? i = f2.get? i) (ht : ∀ j, t1 j = t2 j) :
    get_history f1 t1 n = get_history f2 t2 n ∧
    get_messages f1 t1 e n = get_messages f2 t2 e n := by
  have hf2 : f1 = f2 := List.ext_get? hf
  have ht2 : t1 = t2 := funext ht
  subst hf2
  subst ht2
  exact ⟨rfl, rfl⟩

/-- Witness for C9 at a concrete input. -/
theorem scan_purity_witness :
    get_history buf1 tbl1 9 = get_history buf1 tbl1 9 ∧
    get_messages buf1 tbl1 ⟨[0x41], 88⟩ 9 = get_messages buf1 tbl1 ⟨[0x41], 88⟩ 9 :=
  scan_purity buf1 buf1 tbl1 tbl1 9 ⟨[0x41], 88⟩ (fun _ => rfl) (fun _ => rfl)

/-- C10: the source's `memmem` search of the 22-byte marker within the
22-byte window at `(record_offset + 4) + 0x190` succeeds exactly when
those 22 bytes equal the UTF-16LE encoding of "mrahistory_": over a window
of the needle's own length the search degenerates to exact comparison. -/
theorem memmem_equals_exact_compare :
    ∀ (f : Buf) (off : Nat),
      sigCheckCode f (off + 4 + 0x190) = true ↔ sigMatchesSpec f (off + 4 + 0x190) := by
  intro f off
  unfold sigCheckCode sigMatchesSpec
  cases h : readBytes f (off + 4 + 0x190) 22 with
  | none => simp
  | some w =>
    have hl : w.length = mrahistory.length := by
      rw [readBytes_length f 22 _ w h]
      rfl
    rw [memmem_window w mrahistory hl]
    simp

/-- C2: a record visited by the correspondent scan is emitted exactly when
the 22 bytes at `(record_offset + 4) + 0x190` equal the fixed UTF-16LE
encoding of "mrahistory_"; a non-matching record is skipped without error,
and in both cases the traversal advances to the id2 field of the IdPair at
`record_offset + 4`; concretely, on a 3-record chain where only the middle
record matches, all 3 records are examined and exactly 1 correspondent is
returned. -/
theorem signature_gate_and_advance :
    (∀ (f : Buf) (tbl : Nat → Nat) (n c nxt : Nat) (w : List Nat),
      c ≠ 0 → tbl c < f.length →
      readBytes f (tbl c + 4 + 0x190) 22 = some w →
      readU32 f (tbl c + 8) = some nxt →
      ((w ≠ mrahistory → historyLoop f tbl (n + 1) c = historyLoop f tbl n nxt) ∧
       (∀ nm : List Nat, w = mrahistory →
         decodeZ f (tbl c + 4 + 0x190 + 22) = .ok nm →
         historyLoop f tbl (n + 1) c =
           (historyLoop f tbl n nxt).map (fun r => Email.mk nm (tbl c + 4 + 0x24) :: r)))) ∧
    historyLoop buf2 tbl2 9 5 = .ok [⟨[0x4D], 472⟩] ∧
    chainIds buf2 tbl2 9 5 = .ok [5, 6, 7] := by
  refine ⟨?_, rfl, rfl⟩
  intro f tbl n c nxt w hc hoff hw hnext
  have hwlen : w.length = mrahistory.length := by
    rw [readBytes_length f 22 _ w hw]
    rfl
  constructor
  · intro hne
    have hmm : memmemFound w mrahistory = false := by
      cases hb : memmemFound w mrahistory
      · rfl
      · exact absurd ((memmem_window w mrahistory hwlen).1 hb) hne
    exact historyLoop_succ_none f tbl n c nxt hc
      (historyStep_skip f tbl c nxt w hoff hw hmm hnext)
  · intro nm heq hnm
    have hmm : memmemFound w mrahistory = true :=
      (memmem_window w mrahistory hwlen).2 heq
    exact historyLoop_succ_some f tbl n c nxt ⟨nm, tbl c + 4 + 0x24⟩ hc
      (historyStep_emit f tbl c nxt w nm hoff hw hmm hnm hnext)

/-- Witness for C2 at the matching middle record of `buf2`. -/
theorem signature_gate_and_advance_witness :
    historyLoop buf2 tbl2 4 6 =
      (historyLoop buf2 tbl2 3 7).map (fun r => Email.mk [0x4D] 472 :: r) :=
  (signature_gate_and_advance.1 buf2 tbl2 3 6 7 mrahistory (by decide)
    (by decide) rfl rfl).2 [0x4D] rfl rfl

/-- C7: the correspondent scan initialises its cursor from the u32 read at
`offset_table[1] + 0x2C` and emits correspondents in exactly the order the
chain is walked: a successful scan equals the in-place filter of the
examined chain ids, never a re-sorted list. -/
theorem bootstrap_and_chain_order :
    (∀ (f : Buf) (tbl : Nat → Nat) (n c0 : Nat),
      readU32 f (tbl 1 + 0x2C) = some c0 →
      get_history f tbl n = historyLoop f tbl n c0) ∧
    (∀ (f : Buf) (tbl : Nat → Nat) (n c : Nat) (es : List Email),
      historyLoop f tbl n c = .ok es →
      ∃ ids, chainIds f tbl n c = .ok ids ∧ es = ids.filterMap (emailAt f tbl)) := by
  constructor
  · intro f tbl n c0 h
    unfold get_history
    rw [h]
  · intro f tbl
    exact historyLoop_chain f tbl

/-- Witness for C7 on the happy-path container. -/
theorem bootstrap_and_chain_order_witness :
    get_history buf1 tbl1 9 = historyLoop buf1 tbl1 9 2 ∧
    ∃ ids, chainIds buf1 tbl1 9 2 = .ok ids ∧
      [Email.mk [0x41] 88] = ids.filterMap (emailAt buf1 tbl1) :=
  ⟨bootstrap_and_chain_order.1 buf1 tbl1 9 2 rfl,
   bootstrap_and_chain_order.2 buf1 tbl1 9 2 [⟨[0x41], 88⟩] rfl⟩

/-- C8: a zero cursor terminates both loops at once, and neither scan ever
consults the offset table at the sentinel id 0 - its outputs are invariant
under arbitrary changes of the table entry for id 0. -/
theorem zero_id_sentinel :
    (∀ (f : Buf) (tbl : Nat → Nat) (n : Nat), historyLoop f tbl n 0 = .ok []) ∧
    (∀ (f : Buf) (tbl : Nat → Nat) (n : Nat), messagesLoop f tbl n 0 = .ok []) ∧
    (∀ (f : Buf) (t1 t2 : Nat → Nat), (∀ i, i ≠ 0 → t1 i = t2 i) →
      ∀ n c, historyLoop f t1 n c = historyLoop f t2 n c) ∧
    (∀ (f : Buf) (t1 t2 : Nat → Nat), (∀ i, i ≠ 0 → t1 i = t2 i) →
      ∀ n c, messagesLoop f t1 n c = messagesLoop f t2 n c) ∧
    (∀ (f : Buf) (t1 t2 : Nat → Nat), (∀ i, i ≠ 0 → t1 i = t2 i) →
      ∀ n, get_history f t1 n = get_history f t2 n) ∧
    (∀ (f : Buf) (t1 t2 : Nat → Nat), (∀ i, i ≠ 0 → t1 i = t2 i) →
      ∀ n e, get_messages f t1 e n = get_messages f t2 e n) := by
  refine ⟨historyLoop_zero, messagesLoop_zero, historyLoop_congr,
    messagesLoop_congr, ?_, ?_⟩
  · intro f t1 t2 h n
    unfold get_history
    rw [h 1 one_ne_zero]
    cases hr : readU32 f (t2 1 + 0x2C) with
    | none => rfl
    | some c => exact historyLoop_congr f t1 t2 h n c
  · intro f t1 t2 h n e
    unfold get_messages
    cases hr : readU32 f e.idPairOff with
    | none => rfl
    | some c => exact messagesLoop_congr f t1 t2 h n c

/-- Witness for C8: terminating at cursor 0, and insensitivity of a whole
concrete scan to the table entry for id 0. -/
theorem zero_id_sentinel_witness :
    historyLoop buf1 tbl1 5 0 = .ok [] ∧
    get_history buf1 tbl1z 9 = get_history buf1 tbl1 9 :=
  ⟨zero_id_sentinel.1 buf1 tbl1 5,
   zero_id_sentinel.2.2.2.2.1 buf1 tbl1z tbl1 (fun i hi => by simp [tbl1z, hi]) 9⟩

/-- C3 counterexample: in `buf3`, correspondent "B"'s message chain is well
formed on its own (second conjunct), yet the wrong magic number inside
correspondent "A"'s chain makes the whole run fail with the
process-exiting assertion (first conjunct): nothing at all is produced,
so the failure is not confined to the current correspondent's chain. -/
theorem magic_mismatch_kills_other_chains :
    run_all buf3 tbl3 9 = .error .assertFail ∧
    get_messages buf3 tbl3 ⟨[0x42], 520⟩ 9 = .ok [⟨968, [0x45], [0x5A]⟩] :=
  ⟨rfl, rfl⟩

/-- C3 amended: a message record whose magic number differs from 0x38 makes
the message scan fail through the source's assertion before producing any
author/text pair; and because that assertion exits the process, such a
failure in any correspondent's chain aborts the overall run. -/
theorem magic_mismatch_aborts_run :
    (∀ (f : Buf) (tbl : Nat → Nat) (n c m : Nat),
      c ≠ 0 → readU32 f (tbl c + 36) = some m → m ≠ 0x38 →
      messagesLoop f tbl (n + 1) c = .error .assertFail) ∧
    (∀ (f : Buf) (tbl : Nat → Nat) (n : Nat) (es : List Email) (e : Email) (er : Err),
      get_history f tbl n = .ok es → e ∈ es →
      get_messages f tbl e n = .error er →
      ∃ er2, run_all f tbl n = .error er2) := by
  constructor
  · intro f tbl n c m hc hm hne
    exact messagesLoop_succ_error f tbl n c .assertFail hc
      (messagesStep_assert f tbl c m hm hne)
  · intro f tbl n es e er hh he hm
    unfold run_all
    rw [hh]
    exact mapM_error _ es ⟨e, he, er, by rw [hm]; rfl⟩

/-- Witness for C3 on `buf3` (message id 4 has magic number 0). -/
theorem magic_mismatch_aborts_run_witness :
    messagesLoop buf3 tbl3 4 4 = .error .assertFail ∧
    ∃ er2, run_all buf3 tbl3 9 = .error er2 :=
  ⟨magic_mismatch_aborts_run.1 buf3 tbl3 3 4 0 (by decide) rfl (by decide),
   magic_mismatch_aborts_run.2 buf3 tbl3 9 [⟨[0x41], 88⟩, ⟨[0x42], 520⟩]
     ⟨[0x41], 88⟩ .assertFail rfl (List.mem_cons_self _ _) rfl⟩

/-- C4 counterexample: the message scan has no bounds check at all - at a
resolved offset far outside `bufD` it performs a raw out-of-range read
(`Err.ub`, undefined behaviour in the C source), not a checked
out-of-bounds result; and in the correspondent scan the assertion covers
only the record offset itself, so the 22-byte signature window read still
runs off the end of `bufE`. -/
theorem unchecked_reads_oob :
    get_messages bufD tblD ⟨[], 0⟩ 5 = .error .ub ∧
    historyLoop bufE tblE 5 2 = .error .ub :=
  ⟨rfl, rfl⟩

/-- C4 amended: the correspondent scan guards only the resolved record
offset, through the process-aborting assertion `offset < file_size`; every
further read is unchecked, so the signature window read can leave the
buffer even when the assertion passed, and the message scan performs no
bounds check at all, its header read running out of range. -/
theorem bounds_check_behavior :
    (∀ (f : Buf) (tbl : Nat → Nat) (n c : Nat), c ≠ 0 → f.length ≤ tbl c →
      historyLoop f tbl (n + 1) c = .error .assertFail) ∧
    (∀ (f : Buf) (tbl : Nat → Nat) (n c : Nat), c ≠ 0 → tbl c < f.length →
      f.length < tbl c + 4 + 0x190 + 22 →
      historyLoop f tbl (n + 1) c = .error .ub) ∧
    (∀ (f : Buf) (tbl : Nat → Nat) (n c : Nat), c ≠ 0 → f.length < tbl c + 40 →
      messagesLoop f tbl (n + 1) c = .error .ub) := by
  refine ⟨?_, ?_, ?_⟩
  · intro f tbl n c hc hle
    exact historyLoop_succ_error f tbl n c .assertFail hc
      (historyStep_assert f tbl c (by omega))
  · intro f tbl n c hc hlt hwin
    exact historyLoop_succ_error f tbl n c .ub hc
      (historyStep_window_oob f tbl c hlt
        (readBytes_none_of f 22 (tbl c + 4 + 0x190) (by omega) (by omega)))
  · intro f tbl n c hc hlen
    exact messagesLoop_succ_error f tbl n c .ub hc
      (messagesStep_oob f tbl c (readU32_none_of f (tbl c + 36) (by omega)))

/-- Witness for C4 on the concrete short buffers. -/
theorem bounds_check_behavior_witness :
    historyLoop bufD tblD 5 7 = .error .assertFail ∧
    historyLoop bufE tblE 3 2 = .error .ub ∧
    messagesLoop bufD tblD 3 7 = .error .ub :=
  ⟨bounds_check_behavior.1 bufD tblD 4 7 (by decide) (by decide),
   bounds_check_behavior.2.1 bufE tblE 2 2 (by decide) (by decide) (by decide),
   bounds_check_behavior.2.2 bufD tblD 2 7 (by decide) (by decide)⟩

/-- C5 counterexample: on the one-record cyclic message chain of `bufc` the
message traversal exhausts every fuel bound: the source loop, having no
cycle guard, runs forever instead of terminating with a detectable
error. -/
theorem cyclic_chain_runs_forever : loopsForever bufc tblc 9 := by
  intro n
  refine messagesLoop_cycle bufc tblc (fun c => c = 9) ?_ ?_ n 9 rfl
  · intro c hc
    subst hc
    decide
  · intro c hc
    subst hc
    refine ⟨9, rfl, ?_⟩
    intro n2 h
    have e : messagesLoop bufc tblc (n2 + 1) 9 =
        (messagesLoop bufc tblc n2 9).map (fun r => Message.mk 0 [] [] :: r) := rfl
    rw [e, h]
    rfl

/-- C5 amended: the source traversals carry no cycle guard: whenever the
cursor keeps stepping inside a set of live (non-zero) ids - as on any
cyclic chain - both the correspondent loop and the message loop exhaust
every fuel bound, the embedding's rendering of the original unbounded
loops running forever. -/
theorem traversals_lack_cycle_guard :
    (∀ (f : Buf) (tbl : Nat → Nat) (S : Nat → Prop),
      (∀ c, S c → c ≠ 0) →
      (∀ c, S c → ∃ c2, S c2 ∧ ∀ n, historyLoop f tbl n c2 = .error .fuel →
        historyLoop f tbl (n + 1) c = .error .fuel) →
      ∀ n c, S c → historyLoop f tbl n c = .error .fuel) ∧
    (∀ (f : Buf) (tbl : Nat → Nat) (S : Nat → Prop),
      (∀ c, S c → c ≠ 0) →
      (∀ c, S c → ∃ c2, S c2 ∧ ∀ n, messagesLoop f tbl n c2 = .error .fuel →
        messagesLoop f tbl (n + 1) c = .error .fuel) →
      ∀ n c, S c → messagesLoop f tbl n c = .error .fuel) :=
  ⟨historyLoop_cycle, messagesLoop_cycle⟩

/-- Witness for C5 on the concrete cyclic chains of `bufh` and `bufc`. -/
theorem traversals_lack_cycle_guard_witness :
    historyLoop bufh tblh 7 2 = .error .fuel ∧
    messagesLoop bufc tblc 7 9 = .error .fuel := by
  constructor
  · refine traversals_lack_cycle_guard.1 bufh tblh (fun c => c = 2) ?_ ?_ 7 2 rfl
    · intro c hc
      subst hc
      decide
    · intro c hc
      subst hc
      exact ⟨2, rfl, fun n h => h⟩
  · refine traversals_lack_cycle_guard.2 bufc tblc (fun c => c = 9) ?_ ?_ 7 9 rfl
    · intro c hc
      subst hc
      decide
    · intro c hc
      subst hc
      refine ⟨9, rfl, ?_⟩
      intro n2 h
      have e : messagesLoop bufc tblc (n2 + 1) 9 =
          (messagesLoop bufc tblc n2 9).map (fun r => Message.mk 0 [] [] :: r) := rfl
      rw [e, h]
      rfl

/-- C6 counterexample: the message header is 56 bytes, not 60: on `buf1` the
scan returns the author decoded at header offset + 56 (code unit 0x42),
while decoding at header offset + 60 yields a different string (0x58), so
the author string does not start after a 60-byte header. -/
theorem author_not_at_60_byte_offset :
    get_messages buf1 tbl1 ⟨[0x41], 88⟩ 9 =
      .ok [⟨480, [0x42], [0x58]⟩, ⟨560, [0x43], [0x59]⟩] ∧
    decodeZ buf1 (480 + 56) = .ok [0x42] ∧
    decodeZ buf1 (480 + 60) = .ok [0x58] :=
  ⟨rfl, rfl, rfl⟩

/-- C6 amended: the claim with the header size corrected to the 56 bytes of
the source struct: the author is decoded as a zero-terminated UTF-16
string starting immediately after the 56-byte header, the text starts
nickname_length*2 bytes after the author start, and the text start is
advanced by exactly 3 more code units (6 bytes) exactly when the first
code unit at the text position is zero and the header type equals
0x11. -/
theorem message_layout_after_56_byte_header
    (f : Buf) (tbl : Nat → Nat) (n c nick t0 ty prev : Nat) (a t : List Nat)
    (hc : c ≠ 0)
    (hmagic : readU32 f (tbl c + 36) = some 0x38)
    (hnick : readU32 f (tbl c + 32) = some nick)
    (ht0 : readU16 f (tbl c + 56 + 2 * nick) = some t0)
    (hty : readU32 f (tbl c + 24) = some ty)
    (ha : decodeZ f (tbl c + 56) = .ok a)
    (ht : decodeZ f (if t0 = 0 ∧ ty = 0x11 then tbl c + 56 + 2 * nick + 6
      else tbl c + 56 + 2 * nick) = .ok t)
    (hprev : readU32 f (tbl c + 4) = some prev) :
    messagesLoop f tbl (n + 1) c =
      (messagesLoop f tbl n prev).map (fun r => Message.mk (tbl c) a t :: r) :=
  messagesLoop_succ_ok f tbl n c prev ⟨tbl c, a, t⟩ hc
    (messagesStep_ok f tbl c nick t0 ty prev a t hmagic hnick ht0 hty ha ht hprev)

/-- Witness for C6 at message id 3 of `buf1`. -/
theorem message_layout_after_56_byte_header_witness :
    messagesLoop buf1 tbl1 4 3 =
      (messagesLoop buf1 tbl1 3 4).map (fun r => Message.mk 480 [0x42] [0x58] :: r) :=
  message_layout_after_56_byte_header buf1 tbl1 3 3 2 0x58 0 4 [0x42] [0x58]
    (by decide) rfl rfl rfl rfl rfl rfl rfl
